import Mathlib

/-!
Verification development for the gelf repository: a shallow embedding of the
confirmation state machines (commit TUI and pull-request TUI), the
pull-request creation command flow, the template resolution, the yes/no
prompt and the pull-request URL number extraction, together with the
diff-summary parser modelled from the specification.
-/

namespace Gelf

/-! ## Shared string helpers (model Go stdlib behaviour used by the sources) -/

/-- Model of Go `strings.HasPrefix` applied to lines of text: byte-wise
prefix test, embedded as a character-list prefix test with the prefix given
by its characters. -/
def lineStarts (l : String) (p : List Char) : Bool :=
  p.isPrefixOf l.data

/-- Characters trimmed by Go `strings.TrimSpace` (ASCII fragment: space, tab,
newline, carriage return, vertical tab, form feed; inputs considered in this
development are ASCII). -/
def isGoSpace (c : Char) : Bool :=
  c = ' ' || c = '\t' || c = '\n' || c = '\r' || c.toNat = 11 || c.toNat = 12

/-- Model of Go `strings.TrimSpace`. -/
def goTrimSpace (s : String) : String :=
  String.mk (((s.data.dropWhile isGoSpace).reverse.dropWhile isGoSpace).reverse)

/-- Model of Go `strings.ToLower` (ASCII fragment). -/
def goToLower (s : String) : String :=
  String.mk (s.data.map Char.toLower)

/-! ## Commit TUI state machine

Embedding of `model.Update` from the commit TUI (src/unnamed/part_002,
`NewTUI` / `Update`).  The bubbletea messages are embedded as an explicit
event type; the `tea.Cmd` results that matter (quitting, launching the
`commitChanges` command) are returned as explicit flags. -/

inductive CState
  | loading
  | confirm
  | editing
  | committing
  | success
  | error
deriving DecidableEq, Repr

structure CommitModel where
  commitMessage : String
  originalMessage : String
  errMsg : Option String
  state : CState
  textInput : String
deriving DecidableEq, Repr

inductive CEvent
  /-- `tea.KeyMsg`, identified by its `msg.String()` value. -/
  | key (s : String)
  /-- `msgCommitGenerated`: the generated message, or the generation error. -/
  | genDone (res : Except String String)
  /-- `msgCommitDone`: `some e` carries the commit error, `none` is success. -/
  | commitDone (res : Option String)
  /-- spinner tick or any other message. -/
  | tick
deriving Repr

/-- Result of one `Update` call: the new model, whether `tea.Quit` was
returned, and whether the `commitChanges` command was launched. -/
structure CStep where
  model : CommitModel
  quit : Bool
  startCommit : Bool
deriving DecidableEq, Repr

/-- Model of the bubbles `textinput.Update` call for a key that the commit
TUI does not intercept: the editing behaviour lives in the external library
and only the resulting input value matters here, modelled as appending the
keypress to the value. -/
def textInputPut (v s : String) : String := v ++ s

/-- Embedding of `model.Update` (src/unnamed/part_002). -/
def commitUpdate (m : CommitModel) (e : CEvent) : CStep :=
  match e with
  | .key s =>
    match m.state with
    | .loading =>
      if s = "q" || s = "ctrl+c" then ⟨m, true, false⟩ else ⟨m, false, false⟩
    | .confirm =>
      if s = "y" || s = "Y" then
        ⟨{ m with state := .committing }, false, true⟩
      else if s = "e" || s = "E" then
        ⟨{ m with originalMessage := m.commitMessage,
                  textInput := m.commitMessage,
                  state := .editing }, false, false⟩
      else if s = "n" || s = "N" || s = "q" || s = "ctrl+c" then
        ⟨m, true, false⟩
      else ⟨m, false, false⟩
    | .editing =>
      if s = "enter" then
        let msg := goTrimSpace m.textInput
        let msg := if msg = "" then m.originalMessage else msg
        ⟨{ m with commitMessage := msg, state := .confirm }, false, false⟩
      else if s = "esc" then
        ⟨{ m with commitMessage := m.originalMessage, state := .confirm },
          false, false⟩
      else ⟨{ m with textInput := textInputPut m.textInput s }, false, false⟩
    | .committing => ⟨m, false, false⟩
    | .success => ⟨m, true, false⟩
    | .error => ⟨m, true, false⟩
  | .genDone r =>
    match r with
    | .error e => ⟨{ m with errMsg := some e, state := .error }, false, false⟩
    | .ok msg => ⟨{ m with commitMessage := msg, state := .confirm }, false, false⟩
  | .commitDone r =>
    match r with
    | some e => ⟨{ m with errMsg := some e, state := .error }, true, false⟩
    | none => ⟨{ m with state := .success }, true, false⟩
  | .tick => ⟨m, false, false⟩

/-- Initial model built by `NewTUI`: loading state, empty messages. -/
def commitInit : CommitModel :=
  { commitMessage := "", originalMessage := "", errMsg := none,
    state := .loading, textInput := "" }

/-! ## Pull-request TUI state machine

Embedding of `prModel.Update` from src/internal/ui/pr.go.  Viewport and
window geometry are not modelled: the corresponding branches change neither
the state nor the confirmed flag. -/

inductive PRState
  | loading
  | confirm
  | done
  | error
deriving DecidableEq, Repr

structure PRContent where
  title : String
  body : String
deriving DecidableEq, Repr

structure PRModel where
  confirmed : Bool
  content : Option PRContent
  errMsg : Option String
  state : PRState
deriving DecidableEq, Repr

inductive PREvent
  | key (s : String)
  | mouse
  | window
  /-- `msgPRGenerated`: generated content or the generation error. -/
  | generated (res : Except String PRContent)
  | tick
deriving Repr

structure PRStep where
  model : PRModel
  quit : Bool
deriving DecidableEq, Repr

/-- Embedding of `prModel.Update` (src/internal/ui/pr.go). -/
def prUpdate (m : PRModel) (e : PREvent) : PRStep :=
  match e with
  | .key s =>
    match m.state with
    | .loading =>
      if s = "q" || s = "ctrl+c" then ⟨{ m with state := .done }, true⟩
      else ⟨m, false⟩
    | .confirm =>
      if s = "y" || s = "Y" then
        ⟨{ m with confirmed := true, state := .done }, true⟩
      else if s = "n" || s = "N" || s = "q" || s = "ctrl+c" then
        ⟨{ m with confirmed := false, state := .done }, true⟩
      else ⟨m, false⟩
    | .done => ⟨m, true⟩
    | .error => ⟨m, true⟩
  | .mouse => ⟨m, false⟩
  | .window => ⟨m, false⟩
  | .generated r =>
    match r with
    | .error e => ⟨{ m with errMsg := some e, state := .error }, false⟩
    | .ok c => ⟨{ m with content := some c, state := .confirm }, false⟩
  | .tick => ⟨m, false⟩

/-- Initial model built by `NewPRTUI`: loading state, not confirmed. -/
def prInit : PRModel :=
  { confirmed := false, content := none, errMsg := none, state := .loading }

/-! ## Run semantics

One interactive run of a TUI: the bubbletea program processes events until
`Update` returns `tea.Quit`; the generation command is issued once by
`Init`, the commit command is issued by the approve transition, and each
command delivers its completion message at most once (a result arriving
after quit is discarded by the runtime). -/

structure CRun where
  m : CommitModel
  pendingGen : Bool
  pendingCommit : Bool
  quitted : Bool
deriving DecidableEq, Repr

/-- Whether the runtime can deliver this event: completion messages need the
corresponding command to be outstanding. -/
def cDeliverable (r : CRun) (e : CEvent) : Bool :=
  match e with
  | .genDone _ => r.pendingGen
  | .commitDone _ => r.pendingCommit
  | _ => true

def cConsumesGen (e : CEvent) : Bool :=
  match e with
  | .genDone _ => true
  | _ => false

def cConsumesCommit (e : CEvent) : Bool :=
  match e with
  | .commitDone _ => true
  | _ => false

/-- The runtime state after delivering event `e`. -/
def cRunNext (r : CRun) (e : CEvent) : CRun :=
  { m := (commitUpdate r.m e).model,
    pendingGen := r.pendingGen && !(cConsumesGen e),
    pendingCommit := (r.pendingCommit && !(cConsumesCommit e)) ||
      (commitUpdate r.m e).startCommit,
    quitted := (commitUpdate r.m e).quit }

/-- One runtime step of the commit TUI: `none` when the run is over or the
event cannot be delivered. -/
def cRunStep (r : CRun) (e : CEvent) : Option CRun :=
  if r.quitted then none
  else if cDeliverable r e then some (cRunNext r e)
  else none

/-- Start of a commit-TUI run: `NewTUI` model, generation command issued by
`Init`. -/
def cRunInit : CRun :=
  { m := commitInit, pendingGen := true, pendingCommit := false, quitted := false }

/-- Runtime states reachable in some commit-TUI run. -/
inductive CReachable : CRun → Prop
  | init : CReachable cRunInit
  | step {r r' : CRun} {e : CEvent} :
      CReachable r → cRunStep r e = some r' → CReachable r'

structure PRRun where
  m : PRModel
  pendingGen : Bool
  quitted : Bool
deriving DecidableEq, Repr

def prConsumesGen (e : PREvent) : Bool :=
  match e with
  | .generated _ => true
  | _ => false

def prDeliverable (r : PRRun) (e : PREvent) : Bool :=
  match e with
  | .generated _ => r.pendingGen
  | _ => true

/-- The runtime state after delivering event `e`. -/
def prRunNext (r : PRRun) (e : PREvent) : PRRun :=
  { m := (prUpdate r.m e).model,
    pendingGen := r.pendingGen && !(prConsumesGen e),
    quitted := (prUpdate r.m e).quit }

/-- One runtime step of the pull-request TUI. -/
def prRunStep (r : PRRun) (e : PREvent) : Option PRRun :=
  if r.quitted then none
  else if prDeliverable r e then some (prRunNext r e)
  else none

/-- Start of a pull-request-TUI run: `NewPRTUI` model, generation command
issued by `Init`. -/
def prRunInit : PRRun :=
  { m := prInit, pendingGen := true, quitted := false }

/-- Runtime states reachable in some pull-request-TUI run. -/
inductive PRReachable : PRRun → Prop
  | init : PRReachable prRunInit
  | step {r r' : PRRun} {e : PREvent} :
      PRReachable r → prRunStep r e = some r' → PRReachable r'

/-! ### Run invariants -/

/-- Invariant of commit-TUI runs: an outstanding generation request means the
machine still shows `Loading`, an outstanding commit request means it shows
`Committing`, `Success` only occurs together with quit, and in `Error` no
request is outstanding. -/
def cInv (r : CRun) : Prop :=
  (r.pendingGen = true → r.m.state = .loading) ∧
  (r.pendingCommit = true → r.m.state = .committing) ∧
  (r.m.state = .success → r.quitted = true) ∧
  (r.m.state = .error → r.pendingGen = false ∧ r.pendingCommit = false)

theorem cInv_init : cInv cRunInit := by
  refine ⟨fun _ => rfl, fun h => by simp [cRunInit] at h, ?_, ?_⟩ <;>
    intro h <;> simp [cRunInit, commitInit] at h

theorem cRunStep_some {r r' : CRun} {e : CEvent}
    (h : cRunStep r e = some r') :
    r.quitted = false ∧ cDeliverable r e = true ∧ r' = cRunNext r e := by
  unfold cRunStep at h
  by_cases hq : r.quitted = true
  · simp [hq] at h
  · rw [if_neg hq] at h
    by_cases hd : cDeliverable r e = true
    · rw [if_pos hd] at h
      injection h with h
      exact ⟨by simpa using hq, hd, h.symm⟩
    · rw [if_neg hd] at h
      exact absurd h (by simp)

theorem cInv_step {r r' : CRun} {e : CEvent}
    (hinv : cInv r) (hstep : cRunStep r e = some r') : cInv r' := by
  obtain ⟨hq, hd, rfl⟩ := cRunStep_some hstep
  obtain ⟨⟨cm, om, em, st, ti⟩, pg, pc, qt⟩ := r
  obtain ⟨h1, h2, h3, h4⟩ := hinv
  cases e with
  | key s =>
    cases st <;>
      simp_all only [cInv, cRunNext, commitUpdate, cDeliverable, cConsumesGen,
        cConsumesCommit, Bool.not_false, Bool.and_true, Bool.or_false] <;>
      first
        | (split_ifs <;> refine ⟨?_, ?_, ?_, ?_⟩ <;> intro hx <;> simp_all)
        | (refine ⟨?_, ?_, ?_, ?_⟩ <;> intro hx <;> simp_all)
  | genDone res =>
    cases res <;> cases st <;>
      refine ⟨?_, ?_, ?_, ?_⟩ <;> intro hx <;>
      simp_all [cInv, cRunNext, commitUpdate, cDeliverable, cConsumesGen,
        cConsumesCommit]
  | commitDone res =>
    cases res <;> cases st <;>
      refine ⟨?_, ?_, ?_, ?_⟩ <;> intro hx <;>
      simp_all [cInv, cRunNext, commitUpdate, cDeliverable, cConsumesGen,
        cConsumesCommit]
  | tick =>
    refine ⟨?_, ?_, ?_, ?_⟩ <;> intro hx <;>
      simp_all [cInv, cRunNext, commitUpdate, cDeliverable, cConsumesGen,
        cConsumesCommit]

theorem cInv_reachable {r : CRun} (h : CReachable r) : cInv r := by
  induction h with
  | init => exact cInv_init
  | step _ hstep ih => exact cInv_step ih hstep

/-- Invariant of pull-request-TUI runs: an outstanding generation request
means the machine still shows `Loading`, `Done` only occurs together with
quit, and in `Error` no request is outstanding. -/
def prInv (r : PRRun) : Prop :=
  (r.pendingGen = true → r.m.state = .loading ∨ r.quitted = true) ∧
  (r.m.state = .done → r.quitted = true) ∧
  (r.m.state = .error → r.pendingGen = false)

theorem prInv_init : prInv prRunInit := by
  refine ⟨fun _ => Or.inl rfl, ?_, ?_⟩ <;> intro h <;> simp [prRunInit, prInit] at h

theorem prRunStep_some {r r' : PRRun} {e : PREvent}
    (h : prRunStep r e = some r') :
    r.quitted = false ∧ prDeliverable r e = true ∧ r' = prRunNext r e := by
  unfold prRunStep at h
  by_cases hq : r.quitted = true
  · simp [hq] at h
  · rw [if_neg hq] at h
    by_cases hd : prDeliverable r e = true
    · rw [if_pos hd] at h
      injection h with h
      exact ⟨by simpa using hq, hd, h.symm⟩
    · rw [if_neg hd] at h
      exact absurd h (by simp)

theorem prInv_step {r r' : PRRun} {e : PREvent}
    (hinv : prInv r) (hstep : prRunStep r e = some r') : prInv r' := by
  obtain ⟨hq, hd, rfl⟩ := prRunStep_some hstep
  obtain ⟨⟨cf, ct, em, st⟩, pg, qt⟩ := r
  obtain ⟨h1, h3, h4⟩ := hinv
  cases e with
  | key s =>
    cases st <;>
      simp_all only [prInv, prRunNext, prUpdate, prDeliverable, prConsumesGen,
        Bool.not_false, Bool.and_true] <;>
      first
        | (split_ifs <;> refine ⟨?_, ?_, ?_⟩ <;> intro hx <;> simp_all)
        | (refine ⟨?_, ?_, ?_⟩ <;> intro hx <;> simp_all)
  | mouse =>
    refine ⟨?_, ?_, ?_⟩ <;> intro hx <;>
      simp_all [prInv, prRunNext, prUpdate, prDeliverable, prConsumesGen]
  | window =>
    refine ⟨?_, ?_, ?_⟩ <;> intro hx <;>
      simp_all [prInv, prRunNext, prUpdate, prDeliverable, prConsumesGen]
  | generated res =>
    cases res <;> cases st <;>
      refine ⟨?_, ?_, ?_⟩ <;> intro hx <;>
      simp_all [prInv, prRunNext, prUpdate, prDeliverable, prConsumesGen]
  | tick =>
    refine ⟨?_, ?_, ?_⟩ <;> intro hx <;>
      simp_all [prInv, prRunNext, prUpdate, prDeliverable, prConsumesGen]

theorem prInv_reachable {r : PRRun} (h : PRReachable r) : prInv r := by
  induction h with
  | init => exact prInv_init
  | step _ hstep ih => exact prInv_step ih hstep

/-! ## Claim C1 -/

/-- A pull-request TUI model sitting in the `Confirm` state. -/
def prConfirmSample : PRModel :=
  { confirmed := false, content := some { title := "t", body := "b" },
    errMsg := none, state := .confirm }

/-- A commit TUI model sitting in the `Confirm` state. -/
def cConfirmSample : CommitModel :=
  { commitMessage := "feat: x", originalMessage := "", errMsg := none,
    state := .confirm, textInput := "" }

/-- C1 counterexample: in the pull-request TUI, the approve key moves the
machine from `Confirm` directly to the terminal `Done` state (quitting), not
to a creating state with the write outstanding; `Done` then absorbs further
keys.  This contradicts the claim for the pull-request TUI. -/
theorem pr_approve_goes_directly_to_done :
    (prUpdate prConfirmSample (PREvent.key "y")).model.state = PRState.done ∧
    (prUpdate prConfirmSample (PREvent.key "y")).quit = true ∧
    (prUpdate (prUpdate prConfirmSample (PREvent.key "y")).model
      (PREvent.key "e")).model.state = PRState.done := by
  decide

/-- C1 (amended): in the commit TUI, the approve key in `Confirm` always
moves to `Committing` with the commit request outstanding and never directly
to `Success`; in the pull-request TUI, the approve key in `Confirm` moves
directly to the terminal `Done` state with the confirmed flag set and quits —
the pull-request write is performed by the caller after the TUI returns. -/
theorem approve_transitions (m : CommitModel) (pm : PRModel) (s : String)
    (hm : m.state = CState.confirm) (hpm : pm.state = PRState.confirm)
    (hs : s = "y" ∨ s = "Y") :
    (commitUpdate m (CEvent.key s)).model.state = CState.committing ∧
    (commitUpdate m (CEvent.key s)).startCommit = true ∧
    (commitUpdate m (CEvent.key s)).model.state ≠ CState.success ∧
    (prUpdate pm (PREvent.key s)).model.state = PRState.done ∧
    (prUpdate pm (PREvent.key s)).model.confirmed = true ∧
    (prUpdate pm (PREvent.key s)).quit = true := by
  have hsy : (s = "y" || s = "Y") = true := by
    rcases hs with rfl | rfl <;> simp
  refine ⟨?_, ?_, ?_, ?_, ?_, ?_⟩ <;>
    simp [commitUpdate, prUpdate, hm, hpm, hsy]

theorem approve_transitions_witness :
    (commitUpdate cConfirmSample (CEvent.key "y")).model.state = CState.committing ∧
    (prUpdate prConfirmSample (PREvent.key "y")).model.confirmed = true := by
  have h := approve_transitions cConfirmSample prConfirmSample "y" rfl rfl (Or.inl rfl)
  exact ⟨h.1, h.2.2.2.2.1⟩

/-! ## Claim C2 -/

/-- C2: in every run of either confirmation machine, once the state is
terminal (`Success`/`Error` for the commit TUI, `Done`/`Error` for the
pull-request TUI), no further processed event changes the state. -/
theorem terminal_states_absorb :
    (∀ (r r' : CRun) (e : CEvent), CReachable r → cRunStep r e = some r' →
      (r.m.state = CState.success ∨ r.m.state = CState.error) →
      r'.m.state = r.m.state) ∧
    (∀ (r r' : PRRun) (e : PREvent), PRReachable r → prRunStep r e = some r' →
      (r.m.state = PRState.done ∨ r.m.state = PRState.error) →
      r'.m.state = r.m.state) := by
  constructor
  · intro r r' e hr hstep hterm
    obtain ⟨h1, h2, h3, h4⟩ := cInv_reachable hr
    obtain ⟨hq, hd, rfl⟩ := cRunStep_some hstep
    rcases hterm with hsucc | herr
    · exact absurd (h3 hsucc) (by simp [hq])
    · obtain ⟨hg, hc⟩ := h4 herr
      cases e with
      | key s => simp [cRunNext, commitUpdate, herr]
      | genDone res => simp [cDeliverable, hg] at hd
      | commitDone res => simp [cDeliverable, hc] at hd
      | tick => simp [cRunNext, commitUpdate]
  · intro r r' e hr hstep hterm
    obtain ⟨h1, h3, h4⟩ := prInv_reachable hr
    obtain ⟨hq, hd, rfl⟩ := prRunStep_some hstep
    rcases hterm with hdone | herr
    · exact absurd (h3 hdone) (by simp [hq])
    · have hg := h4 herr
      cases e with
      | key s => simp [prRunNext, prUpdate, herr]
      | mouse => simp [prRunNext, prUpdate]
      | window => simp [prRunNext, prUpdate]
      | generated res => simp [prDeliverable, hg] at hd
      | tick => simp [prRunNext, prUpdate]

/-- A reachable commit-TUI run state in the terminal `Error` state (the
generation request failed). -/
def cErrRun : CRun := cRunNext cRunInit (CEvent.genDone (Except.error "boom"))

theorem terminal_states_absorb_witness :
    ∃ r' : CRun, cRunStep cErrRun (CEvent.key "q") = some r' ∧
      r'.m.state = CState.error := by
  refine ⟨cRunNext cErrRun (CEvent.key "q"), by decide, ?_⟩
  have h := terminal_states_absorb.1 cErrRun (cRunNext cErrRun (CEvent.key "q"))
    (CEvent.key "q")
    (CReachable.step (e := CEvent.genDone (Except.error "boom"))
      CReachable.init (by decide))
    (by decide) (Or.inr (by decide))
  exact h.trans (by decide)

/-! ## Claims C4 and C5 -/

/-- Process a list of keypresses through the commit TUI. -/
def commitKeys (m : CommitModel) (ks : List String) : CommitModel :=
  ks.foldl (fun mm s => (commitUpdate mm (CEvent.key s)).model) m

/-- In `Editing`, keys other than enter and esc only touch the text input:
state, original message and draft message are preserved. -/
theorem commitKeys_editing (m : CommitModel) (ks : List String)
    (hm : m.state = CState.editing)
    (hks : ∀ s ∈ ks, s ≠ "enter" ∧ s ≠ "esc") :
    (commitKeys m ks).state = CState.editing ∧
    (commitKeys m ks).originalMessage = m.originalMessage ∧
    (commitKeys m ks).commitMessage = m.commitMessage := by
  induction ks generalizing m with
  | nil => exact ⟨hm, rfl, rfl⟩
  | cons s ks ih =>
    obtain ⟨hs1, hs2⟩ := hks s (List.mem_cons_self _ _)
    have hstep : (commitUpdate m (CEvent.key s)).model =
        { m with textInput := textInputPut m.textInput s } := by
      simp [commitUpdate, hm, hs1, hs2]
    have hrest := ih { m with textInput := textInputPut m.textInput s }
      (by simpa using hm) (fun t ht => hks t (List.mem_cons_of_mem _ ht))
    simpa [commitKeys, hstep] using hrest

theorem commitUpdate_esc (mm : CommitModel) (hmm : mm.state = CState.editing) :
    (commitUpdate mm (CEvent.key "esc")).model =
      { mm with commitMessage := mm.originalMessage, state := .confirm } := by
  simp [commitUpdate, hmm]

/-- C4: entering `Editing` from `Confirm` with the edit key, pressing any
sequence of text-input keys, then cancelling with Esc returns the machine to
`Confirm` with the draft commit message exactly as it was before. -/
theorem editing_esc_restores (m : CommitModel) (ks : List String)
    (hm : m.state = CState.confirm)
    (hks : ∀ s ∈ ks, s ≠ "enter" ∧ s ≠ "esc") :
    (commitUpdate (commitKeys (commitUpdate m (CEvent.key "e")).model ks)
        (CEvent.key "esc")).model.state = CState.confirm ∧
    (commitUpdate (commitKeys (commitUpdate m (CEvent.key "e")).model ks)
        (CEvent.key "esc")).model.commitMessage = m.commitMessage := by
  have he : (commitUpdate m (CEvent.key "e")).model =
      { m with originalMessage := m.commitMessage, textInput := m.commitMessage,
               state := .editing } := by
    simp [commitUpdate, hm]
  obtain ⟨hst, horig, _⟩ :=
    commitKeys_editing (commitUpdate m (CEvent.key "e")).model ks (by simp [he]) hks
  have h2 : (commitUpdate m (CEvent.key "e")).model.originalMessage =
      m.commitMessage := by rw [he]
  rw [commitUpdate_esc _ hst]
  exact ⟨rfl, horig.trans h2⟩

theorem editing_esc_restores_witness :
    (commitUpdate (commitKeys (commitUpdate cConfirmSample (CEvent.key "e")).model
        ["a", "b"]) (CEvent.key "esc")).model.commitMessage = "feat: x" := by
  have h := editing_esc_restores cConfirmSample ["a", "b"] rfl (by decide)
  exact h.2

/-- A commit TUI model sitting in `Editing` whose input holds text with
surrounding whitespace. -/
def cEditSample : CommitModel :=
  { commitMessage := "x", originalMessage := "orig", errMsg := none,
    state := .editing, textInput := " hi " }

/-- C5 counterexample: Enter in `Editing` does not set the draft to the text
held in the input field character for character — the text is trimmed, and a
whitespace-only input falls back to the original message. -/
theorem enter_not_verbatim :
    (commitUpdate cEditSample (CEvent.key "enter")).model.commitMessage ≠
      cEditSample.textInput ∧
    (commitUpdate { cEditSample with textInput := " " }
      (CEvent.key "enter")).model.commitMessage = "orig" := by
  decide

/-- C5 (amended): Enter in `Editing` returns to `Confirm` and sets the draft
to the whitespace-trimmed edited text, falling back to the original message
when the trimmed text is empty. -/
theorem enter_commits_trimmed (m : CommitModel) (hm : m.state = CState.editing) :
    (commitUpdate m (CEvent.key "enter")).model.state = CState.confirm ∧
    (commitUpdate m (CEvent.key "enter")).model.commitMessage =
      (if goTrimSpace m.textInput = "" then m.originalMessage
       else goTrimSpace m.textInput) := by
  constructor <;> simp [commitUpdate, hm]

theorem enter_commits_trimmed_witness :
    (commitUpdate cEditSample (CEvent.key "enter")).model.commitMessage = "hi" := by
  have h := enter_commits_trimmed cEditSample rfl
  exact h.2.trans (by decide)

/-! ## Claim C3: diff summary parser -/

structure FileChange where
  name : String
  addedLines : Nat
  deletedLines : Nat
deriving DecidableEq, Repr

structure DiffSummary where
  files : List FileChange
deriving DecidableEq, Repr

/-- A unified-diff file header line: `+++ ` followed by the display path. -/
def isFileHeader (l : String) : Bool :=
  lineStarts l ['+', '+', '+', ' ']

/-- Display path of a file header line, with the customary `b/` (post-rename
side) marker stripped. -/
def headerName (l : String) : String :=
  let rest := l.drop 4
  if lineStarts rest ['b', '/'] then rest.drop 2 else rest

/-- An added line: begins with `+` but not with `+++`. -/
def isAddedLine (l : String) : Bool :=
  lineStarts l ['+'] && !(lineStarts l ['+', '+', '+'])

/-- A deleted line: begins with `-` but not with `---`. -/
def isDeletedLine (l : String) : Bool :=
  lineStarts l ['-'] && !(lineStarts l ['-', '-', '-'])

def countAdded (ls : List String) : Nat := (ls.filter isAddedLine).length

def countDeleted (ls : List String) : Nat := (ls.filter isDeletedLine).length

def bumpAdded : Option FileChange → Option FileChange
  | none => none
  | some fc => some { fc with addedLines := fc.addedLines + 1 }

def bumpDeleted : Option FileChange → Option FileChange
  | none => none
  | some fc => some { fc with deletedLines := fc.deletedLines + 1 }

/-- Walk the diff lines, keeping the `FileChange` under construction. -/
def parseDiffAux (cur : Option FileChange) : List String → List FileChange
  | [] => cur.toList
  | l :: ls =>
    if isFileHeader l then
      cur.toList ++
        parseDiffAux (some { name := headerName l, addedLines := 0, deletedLines := 0 }) ls
    else if isAddedLine l then parseDiffAux (bumpAdded cur) ls
    else if isDeletedLine l then parseDiffAux (bumpDeleted cur) ls
    else parseDiffAux cur ls

def parseDiffLines (ls : List String) : List FileChange :=
  parseDiffAux none ls

/-- Model of Go `strings.Split` at a single-character separator, over the
character list. -/
def splitOnChar (sep : Char) : List Char → List (List Char)
  | [] => [[]]
  | c :: cs =>
    if c = sep then [] :: splitOnChar sep cs
    else
      match splitOnChar sep cs with
      | [] => [[c]]
      | h :: t => (c :: h) :: t

/-- Split a text into its lines, Go `strings.Split(text, "\n")`. -/
def splitLines (s : String) : List String :=
  (splitOnChar '\n' s.data).map String.mk

/-- Modelled from the spec: `git.ParseDiffSummary` is called by the TUIs but
its definition is not under src/.  Per spec §4.1, a line beginning with the
file-header marker starts a new `FileChange` keyed by the file's display
(post-rename) path; every subsequent line beginning with `+` (not `+++`)
increments that file's `addedLines`; every line beginning with `-` (not
`---`) increments `deletedLines`; lines outside any recognised file section
are ignored, and malformed input degrades to an empty or partial summary. -/
def ParseDiffSummary (text : String) : DiffSummary :=
  { files := parseDiffLines (splitLines text) }

/-- Lines before the first header are ignored whether or not they look like
change lines. -/
theorem parseDiffAux_none_skip (p : List String) (rest : List String)
    (hp : ∀ l ∈ p, isFileHeader l = false) :
    parseDiffAux none (p ++ rest) = parseDiffAux none rest := by
  induction p with
  | nil => rfl
  | cons l p ih =>
    have hl := hp l (List.mem_cons_self _ _)
    have hrest := ih (fun t ht => hp t (List.mem_cons_of_mem _ ht))
    by_cases ha : isAddedLine l = true
    · simpa [parseDiffAux, hl, ha, bumpAdded] using hrest
    · by_cases hd : isDeletedLine l = true
      · simpa [parseDiffAux, hl, ha, hd, bumpDeleted] using hrest
      · simpa [parseDiffAux, hl, ha, hd] using hrest

/-- An added line does not count as deleted (it starts with `+`, not `-`). -/
theorem isAddedLine_not_deleted (l : String) (h : isAddedLine l = true) :
    isDeletedLine l = false := by
  unfold isAddedLine lineStarts at h
  unfold isDeletedLine lineStarts
  cases hd : l.data with
  | nil => rw [hd] at h; exact absurd h (by decide)
  | cons c cs =>
    rw [hd] at h
    simp [List.isPrefixOf] at h ⊢
    intro hc
    rw [← hc] at h
    simp at h

/-- Within a section body free of header lines, the walker only accumulates
the added/deleted counters of the current file. -/
theorem parseDiffAux_body (body : List String) (fc : FileChange)
    (rest : List String) (hb : ∀ l ∈ body, isFileHeader l = false) :
    parseDiffAux (some fc) (body ++ rest) =
      parseDiffAux (some { name := fc.name,
                           addedLines := fc.addedLines + countAdded body,
                           deletedLines := fc.deletedLines + countDeleted body })
        rest := by
  induction body generalizing fc with
  | nil => simp [countAdded, countDeleted]
  | cons l body ih =>
    have hl := hb l (List.mem_cons_self _ _)
    have hb' := fun t ht => hb t (List.mem_cons_of_mem _ ht)
    by_cases ha : isAddedLine l = true
    · have hd := isAddedLine_not_deleted l ha
      have hstep : parseDiffAux (some fc) ((l :: body) ++ rest) =
          parseDiffAux (some { fc with addedLines := fc.addedLines + 1 })
            (body ++ rest) := by
        simp [parseDiffAux, hl, ha, bumpAdded]
      rw [hstep, ih { fc with addedLines := fc.addedLines + 1 } hb']
      have hca : countAdded (l :: body) = countAdded body + 1 := by
        simp [countAdded, List.filter_cons, ha]
      have hcd : countDeleted (l :: body) = countDeleted body := by
        simp [countDeleted, List.filter_cons, hd]
      rw [hca, hcd, show fc.addedLines + 1 + countAdded body =
        fc.addedLines + (countAdded body + 1) from by omega]
    · by_cases hd : isDeletedLine l = true
      · have hstep : parseDiffAux (some fc) ((l :: body) ++ rest) =
            parseDiffAux (some { fc with deletedLines := fc.deletedLines + 1 })
              (body ++ rest) := by
          simp [parseDiffAux, hl, ha, hd, bumpDeleted]
        rw [hstep, ih { fc with deletedLines := fc.deletedLines + 1 } hb']
        have hca : countAdded (l :: body) = countAdded body := by
          simp [countAdded, List.filter_cons, ha]
        have hcd : countDeleted (l :: body) = countDeleted body + 1 := by
          simp [countDeleted, List.filter_cons, hd]
        rw [hca, hcd, show fc.deletedLines + 1 + countDeleted body =
          fc.deletedLines + (countDeleted body + 1) from by omega]
      · have hstep : parseDiffAux (some fc) ((l :: body) ++ rest) =
            parseDiffAux (some fc) (body ++ rest) := by
          simp [parseDiffAux, hl, ha, hd]
        rw [hstep, ih fc hb']
        have hca : countAdded (l :: body) = countAdded body := by
          simp [countAdded, List.filter_cons, ha]
        have hcd : countDeleted (l :: body) = countDeleted body := by
          simp [countDeleted, List.filter_cons, hd]
        rw [hca, hcd]

/-- Walking a list of well-formed sections flushes the current file and
yields one `FileChange` per section with that section's counts. -/
theorem parseDiffAux_sections (secs : List (String × List String))
    (hsec : ∀ sc ∈ secs, isFileHeader sc.1 = true ∧
      ∀ l ∈ sc.2, isFileHeader l = false) :
    ∀ cur : Option FileChange,
      parseDiffAux cur ((secs.map (fun sc => sc.1 :: sc.2)).flatten) =
        cur.toList ++ secs.map (fun sc =>
          { name := headerName sc.1, addedLines := countAdded sc.2,
            deletedLines := countDeleted sc.2 }) := by
  induction secs with
  | nil => intro cur; simp [parseDiffAux]
  | cons sc secs ih =>
    intro cur
    obtain ⟨hh, hbody⟩ := hsec sc (List.mem_cons_self _ _)
    have ih' := ih (fun t ht => hsec t (List.mem_cons_of_mem _ ht))
    simp only [List.map_cons, List.flatten_cons, List.cons_append]
    have hstep : parseDiffAux cur
        (sc.1 :: (sc.2 ++ (secs.map (fun sc => sc.1 :: sc.2)).flatten)) =
        cur.toList ++ parseDiffAux
          (some { name := headerName sc.1, addedLines := 0, deletedLines := 0 })
          (sc.2 ++ (secs.map (fun sc => sc.1 :: sc.2)).flatten) := by
      simp [parseDiffAux, hh]
    rw [hstep, parseDiffAux_body sc.2 _ _ hbody,
      ih' (some { name := headerName sc.1, addedLines := 0 + countAdded sc.2,
                  deletedLines := 0 + countDeleted sc.2 })]
    simp

/-- C3: for a diff made of a header-free preamble followed by file sections
(each a header line followed by a header-free body), the parser records for
every section, in order, exactly its number of `+` (not `+++`) lines as
`addedLines` and of `-` (not `---`) lines as `deletedLines`. -/
theorem diff_summary_counts (p : List String)
    (secs : List (String × List String))
    (hp : ∀ l ∈ p, isFileHeader l = false)
    (hsec : ∀ sc ∈ secs, isFileHeader sc.1 = true ∧
      ∀ l ∈ sc.2, isFileHeader l = false) :
    parseDiffLines (p ++ (secs.map (fun sc => sc.1 :: sc.2)).flatten) =
      secs.map (fun sc =>
        { name := headerName sc.1, addedLines := countAdded sc.2,
          deletedLines := countDeleted sc.2 }) := by
  unfold parseDiffLines
  rw [parseDiffAux_none_skip p _ hp, parseDiffAux_sections secs hsec none]
  rfl

theorem diff_summary_counts_witness :
    parseDiffLines (["junk"] ++
        (([("+++ b/x.go", ["+a", "+b", "-c"])].map
          (fun sc => sc.1 :: sc.2)).flatten)) =
      [{ name := "x.go", addedLines := 2, deletedLines := 1 }] ∧
    ParseDiffSummary "+++ b/x.go\n+a\n+b\n-c" =
      { files := [{ name := "x.go", addedLines := 2, deletedLines := 1 }] } := by
  constructor
  · have h := diff_summary_counts ["junk"] [("+++ b/x.go", ["+a", "+b", "-c"])]
      (by decide) (by decide)
    exact h.trans (by decide)
  · decide

/-! ## Claims C6 and C7: the `pr create` command flow

Embedding of `runPRCreate` (src/unnamed/part_000, from the commit-log fetch
onwards; src/unnamed/part_001 is identical on this fragment) and
`ensureBranchPushed`.  The external collaborators (git, gh, the AI client,
the TUI) are inputs in an environment of call results; the side-effecting
operations performed are collected in an ordered effect trace. -/

structure PushStatus where
  headPushed : Bool
  hasUpstream : Bool
  remoteName : String
deriving DecidableEq, Repr

inductive PREffect
  /-- the `Push now?` prompt shown by `ensureBranchPushed` -/
  | promptPush
  /-- `git push` -/
  | push
  /-- `GeneratePullRequestContent` called directly (dry-run or `--yes`) -/
  | generate
  /-- the confirmation TUI run (which generates internally) -/
  | runTUI
  /-- `gh pr create` -/
  | ghCreate
  /-- `gh pr edit` -/
  | ghUpdate
deriving DecidableEq, Repr

/-- Results of the external calls `runPRCreate` can make after the template
has been resolved. -/
structure PREnv where
  baseBranch : String
  headBranch : String
  commitLog : Except String String
  diffStat : Except String String
  diff : Except String String
  dryRun : Bool
  yes : Bool
  updateExisting : Bool
  pushStatus : Except String PushStatus
  pushAnswer : Except String Bool
  pushResult : Except String Unit
  aiClient : Except String Unit
  genResult : Except String PRContent
  tuiResult : Except String (PRContent × Bool)
  ghResult : Except String Unit

/-- Outcome of the command: effect trace and the returned error (`none` is a
nil error). -/
structure PROutcome where
  effects : List PREffect
  err : Option String
deriving DecidableEq, Repr

/-- Embedding of `ensureBranchPushed` (src/unnamed/part_000): effect trace
plus either an error or whether the flow should continue. -/
def ensureBranchPushed (env : PREnv) : List PREffect × Except String Bool :=
  match env.pushStatus with
  | .error e => ([], .error ("failed to check if branch is pushed: " ++ e))
  | .ok st =>
    if st.headPushed then ([], .ok true)
    else
      match env.pushAnswer with
      | .error e => ([.promptPush], .error e)
      | .ok false => ([.promptPush], .ok false)
      | .ok true =>
        match env.pushResult with
        | .error e => ([.promptPush, .push], .error ("failed to push branch: " ++ e))
        | .ok _ => ([.promptPush, .push], .ok true)

/-- The create/update tail of `runPRCreate` once content is confirmed. -/
def finishPR (env : PREnv) (effs : List PREffect) : PROutcome :=
  if env.updateExisting then
    match env.ghResult with
    | .error e => ⟨effs ++ [.ghUpdate], some ("failed to update pull request: " ++ e)⟩
    | .ok _ => ⟨effs ++ [.ghUpdate], none⟩
  else
    match env.ghResult with
    | .error e => ⟨effs ++ [.ghCreate], some ("failed to create pull request: " ++ e)⟩
    | .ok _ => ⟨effs ++ [.ghCreate], none⟩

/-- Embedding of `runPRCreate` (src/unnamed/part_000) from the commit-log
fetch onward: commit range checks, push check (skipped in dry-run),
generation via `--yes`/dry-run or the TUI, then the gh write. -/
def runPRCreateCore (env : PREnv) : PROutcome :=
  let baseRef := "origin/" ++ env.baseBranch
  match env.commitLog with
  | .error e => ⟨[], some ("failed to get commit log: " ++ e)⟩
  | .ok commitLog =>
    if commitLog = "" then
      ⟨[], some ("no commits found between " ++ baseRef ++ " and " ++ env.headBranch)⟩
    else
      match env.diffStat with
      | .error e => ⟨[], some ("failed to get diff stat: " ++ e)⟩
      | .ok _ =>
        match env.diff with
        | .error e => ⟨[], some ("failed to get diff: " ++ e)⟩
        | .ok diff =>
          if diff = "" then
            ⟨[], some ("no committed changes found between " ++ baseRef ++
              " and " ++ env.headBranch)⟩
          else
            match (if env.dryRun then ([], Except.ok true) else ensureBranchPushed env) with
            | (effs, .error e) => ⟨effs, some e⟩
            | (effs, .ok false) => ⟨effs, none⟩
            | (effs, .ok true) =>
              match env.aiClient with
              | .error e => ⟨effs, some ("failed to create AI client: " ++ e)⟩
              | .ok _ =>
                if env.dryRun then
                  match env.genResult with
                  | .error e => ⟨effs ++ [.generate], some e⟩
                  | .ok _ => ⟨effs ++ [.generate], none⟩
                else if env.yes then
                  match env.genResult with
                  | .error e => ⟨effs ++ [.generate], some e⟩
                  | .ok _ => finishPR env (effs ++ [.generate])
                else
                  match env.tuiResult with
                  | .error e => ⟨effs ++ [.runTUI], some e⟩
                  | .ok (_, confirmed) =>
                    if confirmed then finishPR env (effs ++ [.runTUI])
                    else ⟨effs ++ [.runTUI], none⟩

/-- C6: with an empty commit range, `runPRCreate` halts with the
corresponding input error and performs no operation at all — in particular
no generation and no write. -/
theorem pr_create_empty_range_halts (env : PREnv) :
    (env.commitLog = Except.ok "" →
      runPRCreateCore env =
        ⟨[], some ("no commits found between " ++ ("origin/" ++ env.baseBranch) ++
          " and " ++ env.headBranch)⟩) ∧
    (∀ log ds, env.commitLog = Except.ok log → log ≠ "" →
      env.diffStat = Except.ok ds → env.diff = Except.ok "" →
      runPRCreateCore env =
        ⟨[], some ("no committed changes found between " ++
          ("origin/" ++ env.baseBranch) ++ " and " ++ env.headBranch)⟩) := by
  constructor
  · intro hlog
    simp [runPRCreateCore, hlog]
  · intro log ds hlog hne hds hdiff
    simp [runPRCreateCore, hlog, hne, hds, hdiff]

theorem pr_create_empty_range_halts_witness :
    runPRCreateCore
      { baseBranch := "main", headBranch := "feat",
        commitLog := Except.ok "", diffStat := Except.ok "",
        diff := Except.ok "", dryRun := false, yes := false,
        updateExisting := false,
        pushStatus := Except.ok { headPushed := true, hasUpstream := true, remoteName := "origin" },
        pushAnswer := Except.ok true, pushResult := Except.ok (),
        aiClient := Except.ok (), genResult := Except.ok { title := "t", body := "b" },
        tuiResult := Except.ok ({ title := "t", body := "b" }, true),
        ghResult := Except.ok () } =
      ⟨[], some "no commits found between origin/main and feat"⟩ := by
  have h := (pr_create_empty_range_halts
    { baseBranch := "main", headBranch := "feat",
      commitLog := Except.ok "", diffStat := Except.ok "",
      diff := Except.ok "", dryRun := false, yes := false,
      updateExisting := false,
      pushStatus := Except.ok { headPushed := true, hasUpstream := true, remoteName := "origin" },
      pushAnswer := Except.ok true, pushResult := Except.ok (),
      aiClient := Except.ok (), genResult := Except.ok { title := "t", body := "b" },
      tuiResult := Except.ok ({ title := "t", body := "b" }, true),
      ghResult := Except.ok () }).1 rfl
  exact h.trans (by decide)

/-- The push helper only ever prompts and pushes. -/
theorem ensureBranchPushed_effects (env : PREnv) :
    (ensureBranchPushed env).1 = [] ∨
    (ensureBranchPushed env).1 = [.promptPush] ∨
    (ensureBranchPushed env).1 = [.promptPush, .push] := by
  unfold ensureBranchPushed
  cases env.pushStatus with
  | error e => simp
  | ok st =>
    by_cases hp : st.headPushed = true
    · simp [hp]
    · cases ha : env.pushAnswer with
      | error e => simp [hp, ha]
      | ok b => cases b <;> simp [hp, ha] <;> cases env.pushResult <;> simp

/-- C7: user cancellation is a nil-error exit with no write.  Declining the
push prompt returns a nil error having only prompted; declining in the
confirmation TUI returns a nil error and never reaches `gh pr create` or
`gh pr edit`; and in the commit TUI the reject key in `Confirm` quits
without launching the commit command. -/
theorem user_decline_is_silent :
    (∀ (env : PREnv) (log ds d : String) (st : PushStatus),
      env.commitLog = Except.ok log → log ≠ "" →
      env.diffStat = Except.ok ds →
      env.diff = Except.ok d → d ≠ "" →
      env.dryRun = false →
      env.pushStatus = Except.ok st → st.headPushed = false →
      env.pushAnswer = Except.ok false →
      runPRCreateCore env = ⟨[.promptPush], none⟩) ∧
    (∀ (env : PREnv) (log ds d : String) (effs : List PREffect) (c : PRContent),
      env.commitLog = Except.ok log → log ≠ "" →
      env.diffStat = Except.ok ds →
      env.diff = Except.ok d → d ≠ "" →
      env.dryRun = false → env.yes = false →
      ensureBranchPushed env = (effs, Except.ok true) →
      env.aiClient = Except.ok () →
      env.tuiResult = Except.ok (c, false) →
      runPRCreateCore env = ⟨effs ++ [.runTUI], none⟩ ∧
      PREffect.ghCreate ∉ effs ++ [PREffect.runTUI] ∧
      PREffect.ghUpdate ∉ effs ++ [PREffect.runTUI] ∧
      PREffect.generate ∉ effs ++ [PREffect.runTUI]) ∧
    (∀ (m : CommitModel) (s : String), m.state = CState.confirm →
      (s = "n" ∨ s = "N") →
      commitUpdate m (CEvent.key s) = ⟨m, true, false⟩) := by
  refine ⟨?_, ?_, ?_⟩
  · intro env log ds d st hlog hlogne hds hdiff hdne hdry hst hhp hans
    simp [runPRCreateCore, hlog, hlogne, hds, hdiff, hdne, hdry,
      ensureBranchPushed, hst, hhp, hans]
  · intro env log ds d effs c hlog hlogne hds hdiff hdne hdry hyes hpush hai htui
    have heffs := ensureBranchPushed_effects env
    rw [hpush] at heffs
    refine ⟨?_, ?_, ?_, ?_⟩
    · simp [runPRCreateCore, hlog, hlogne, hds, hdiff, hdne, hdry, hyes,
        hpush, hai, htui]
    all_goals
      rcases heffs with h | h | h <;> simp at h <;> subst h <;> decide
  · intro m s hm hs
    have hsn : (s = "y" || s = "Y") = false := by
      rcases hs with rfl | rfl <;> decide
    have hse : (s = "e" || s = "E") = false := by
      rcases hs with rfl | rfl <;> decide
    have hsq : (s = "n" || s = "N" || s = "q" || s = "ctrl+c") = true := by
      rcases hs with rfl | rfl <;> decide
    simp [commitUpdate, hm, hsn, hse, hsq]

theorem user_decline_is_silent_witness :
    runPRCreateCore
      { baseBranch := "main", headBranch := "feat",
        commitLog := Except.ok "abc fix", diffStat := Except.ok "1 file",
        diff := Except.ok "+x", dryRun := false, yes := false,
        updateExisting := false,
        pushStatus := Except.ok { headPushed := false, hasUpstream := true, remoteName := "origin" },
        pushAnswer := Except.ok false, pushResult := Except.ok (),
        aiClient := Except.ok (), genResult := Except.ok { title := "t", body := "b" },
        tuiResult := Except.ok ({ title := "t", body := "b" }, false),
        ghResult := Except.ok () } =
      ⟨[PREffect.promptPush], none⟩ := by
  exact user_decline_is_silent.1
    { baseBranch := "main", headBranch := "feat",
      commitLog := Except.ok "abc fix", diffStat := Except.ok "1 file",
      diff := Except.ok "+x", dryRun := false, yes := false,
      updateExisting := false,
      pushStatus := Except.ok { headPushed := false, hasUpstream := true, remoteName := "origin" },
      pushAnswer := Except.ok false, pushResult := Except.ok (),
      aiClient := Except.ok (), genResult := Except.ok { title := "t", body := "b" },
      tuiResult := Except.ok ({ title := "t", body := "b" }, false),
      ghResult := Except.ok () }
    "abc fix" "1 file" "+x"
    { headPushed := false, hasUpstream := true, remoteName := "origin" }
    rfl (by decide) rfl rfl (by decide) rfl rfl rfl rfl

/-! ## Claim C8: local pull-request template resolution

Embedding of `selectTemplateFromDir` and the directory-candidate loop of
`findLocalPullRequestTemplate` (src/internal/github/template.go).  The file
system is an input: a directory is a list of entries plus file contents. -/

/-- Model of Go `strings.HasSuffix` as a character-list suffix test. -/
def lineEnds (l : String) (p : List Char) : Bool :=
  p.isSuffixOf l.data

/-- Embedding of `isTemplateFile`: the lowercased name ends in `.md`,
`.markdown` or `.txt`. -/
def isTemplateFile (name : String) : Bool :=
  lineEnds (goToLower name) ['.', 'm', 'd'] ||
  lineEnds (goToLower name) ['.', 'm', 'a', 'r', 'k', 'd', 'o', 'w', 'n'] ||
  lineEnds (goToLower name) ['.', 't', 'x', 't']

/-- Byte-wise (code-point) lexicographic order on character lists, the order
used by Go `sort.Strings` (identical on the UTF-8 bytes for the ASCII names
considered here). -/
def listLe : List Char → List Char → Bool
  | [], _ => true
  | _ :: _, [] => false
  | a :: as, b :: bs =>
    if a.toNat < b.toNat then true
    else if b.toNat < a.toNat then false
    else listLe as bs

def goStrLe (a b : String) : Bool := listLe a.data b.data

theorem listLe_total (as bs : List Char) :
    listLe as bs = true ∨ listLe bs as = true := by
  induction as generalizing bs with
  | nil => exact Or.inl rfl
  | cons a as ih =>
    cases bs with
    | nil => exact Or.inr rfl
    | cons b bs =>
      by_cases hab : a.toNat < b.toNat
      · exact Or.inl (by simp [listLe, hab])
      · by_cases hba : b.toNat < a.toNat
        · exact Or.inr (by simp [listLe, hba])
        · rcases ih bs with h | h
          · exact Or.inl (by simp [listLe, hab, hba, h])
          · exact Or.inr (by simp [listLe, hab, hba, h])

theorem listLe_refl (as : List Char) : listLe as as = true := by
  induction as with
  | nil => rfl
  | cons a as ih => simp [listLe, ih]

theorem listLe_trans (as bs cs : List Char) (h1 : listLe as bs = true)
    (h2 : listLe bs cs = true) : listLe as cs = true := by
  induction as generalizing bs cs with
  | nil => rfl
  | cons a as ih =>
    cases bs with
    | nil => simp [listLe] at h1
    | cons b bs =>
      cases cs with
      | nil => simp [listLe] at h2
      | cons c cs =>
        by_cases hab : a.toNat < b.toNat
        · by_cases hbc : b.toNat < c.toNat
          · simp [listLe, show a.toNat < c.toNat from by omega]
          · by_cases hcb : c.toNat < b.toNat
            · simp [listLe, hbc, hcb] at h2
            · simp [listLe, show a.toNat < c.toNat from by omega]
        · by_cases hba : b.toNat < a.toNat
          · simp [listLe, hab, hba] at h1
          · simp only [listLe, if_neg hab, if_neg hba] at h1
            by_cases hbc : b.toNat < c.toNat
            · simp [listLe, show a.toNat < c.toNat from by omega]
            · by_cases hcb : c.toNat < b.toNat
              · simp [listLe, hbc, hcb] at h2
              · simp only [listLe, if_neg hbc, if_neg hcb] at h2
                simp only [listLe, if_neg (show ¬ a.toNat < c.toNat from by omega),
                  if_neg (show ¬ c.toNat < a.toNat from by omega)]
                exact ih bs cs h1 h2

theorem goStrLe_total (a b : String) :
    goStrLe a b = true ∨ goStrLe b a = true := listLe_total a.data b.data

theorem goStrLe_refl (a : String) : goStrLe a a = true := listLe_refl a.data

theorem goStrLe_trans (a b c : String) (h1 : goStrLe a b = true)
    (h2 : goStrLe b c = true) : goStrLe a c = true :=
  listLe_trans a.data b.data c.data h1 h2

/-- Insertion step of the insertion sort modelling `sort.Strings`. -/
def insertSorted (x : String) : List String → List String
  | [] => [x]
  | y :: ys => if goStrLe x y then x :: y :: ys else y :: insertSorted x ys

def sortStrings (l : List String) : List String := l.foldr insertSorted []

theorem mem_insertSorted (x y : String) (l : List String) :
    y ∈ insertSorted x l ↔ y = x ∨ y ∈ l := by
  induction l with
  | nil => simp [insertSorted]
  | cons z zs ih =>
    by_cases h : goStrLe x z = true
    · simp [insertSorted, h]
    · simp [insertSorted, h, ih]
      tauto

theorem mem_sortStrings (x : String) (l : List String) :
    x ∈ sortStrings l ↔ x ∈ l := by
  induction l with
  | nil => simp [sortStrings]
  | cons a l ih =>
    have : sortStrings (a :: l) = insertSorted a (sortStrings l) := rfl
    rw [this, mem_insertSorted, ih]
    simp

theorem sortStrings_eq_nil (l : List String) :
    sortStrings l = [] ↔ l = [] := by
  induction l with
  | nil => simp [sortStrings]
  | cons a l ih =>
    have h : sortStrings (a :: l) = insertSorted a (sortStrings l) := rfl
    rw [h]
    constructor
    · intro hnil
      cases hs : sortStrings l with
      | nil => rw [hs] at hnil; simp [insertSorted] at hnil
      | cons y ys =>
        rw [hs] at hnil
        unfold insertSorted at hnil
        by_cases hxy : goStrLe a y = true <;> simp [hxy] at hnil
    · intro h; simp at h

/-- The first element of the sorted candidate list is a candidate and is a
lower bound of all candidates. -/
theorem sortStrings_first (l : List String) (hl : l ≠ []) :
    (sortStrings l).headD "" ∈ l ∧
    ∀ c ∈ l, goStrLe ((sortStrings l).headD "") c = true := by
  induction l with
  | nil => exact absurd rfl hl
  | cons a l ih =>
    by_cases h0 : l = []
    · subst h0
      constructor
      · simp [sortStrings, insertSorted]
      · intro c hc
        simp at hc
        subst hc
        simpa [sortStrings, insertSorted] using goStrLe_refl c
    · obtain ⟨ihm, ihle⟩ := ih h0
      obtain ⟨y, ys, hy⟩ : ∃ y ys, sortStrings l = y :: ys := by
        cases hs : sortStrings l with
        | nil => exact absurd ((sortStrings_eq_nil l).mp hs) h0
        | cons y ys => exact ⟨y, ys, rfl⟩
      rw [hy] at ihm ihle
      simp only [List.headD_cons] at ihm ihle
      have hsc : sortStrings (a :: l) = insertSorted a (y :: ys) := by
        show insertSorted a (sortStrings l) = _
        rw [hy]
      by_cases hay : goStrLe a y = true
      · rw [hsc]
        unfold insertSorted
        rw [if_pos hay]
        constructor
        · simp
        · intro c hc
          simp only [List.headD_cons]
          rcases List.mem_cons.mp hc with hca | hc
          · rw [hca]
            exact goStrLe_refl a
          · exact goStrLe_trans a y c hay (ihle c hc)
      · rw [hsc]
        unfold insertSorted
        rw [if_neg hay]
        constructor
        · simp only [List.headD_cons]
          exact List.mem_cons_of_mem _ ihm
        · intro c hc
          simp only [List.headD_cons]
          rcases List.mem_cons.mp hc with hca | hc
          · rw [hca]
            rcases goStrLe_total a y with h | h
            · exact absurd h hay
            · exact h
          · exact ihle c hc

structure DirEntry where
  name : String
  isDir : Bool
deriving DecidableEq, Repr

/-- A candidate template directory: its entries and the file contents. -/
structure TemplateDir where
  entries : List DirEntry
  contents : List (String × String)
deriving DecidableEq, Repr

def readDirFile (d : TemplateDir) (name : String) : Except String String :=
  match d.contents.find? (fun p => p.1 = name) with
  | some p => Except.ok p.2
  | none => Except.error name

/-- The candidate names `selectTemplateFromDir` collects: non-directory
entries whose name passes `isTemplateFile`, in entry order. -/
def templateCandidates (d : TemplateDir) : List String :=
  (d.entries.filter (fun e => !e.isDir && isTemplateFile e.name)).map
    (fun e => e.name)

/-- Embedding of `selectTemplateFromDir` (template.go): empty candidate list
yields `("", "")`; otherwise the lexicographically first candidate is read. -/
def selectTemplateFromDir (d : TemplateDir) : Except String (String × String) :=
  let candidates := templateCandidates d
  if candidates = [] then Except.ok ("", "")
  else
    let selected := (sortStrings candidates).headD ""
    match readDirFile d selected with
    | .error e => .error e
    | .ok content => .ok (selected, content)

/-- Embedding of the directory-candidate loop of
`findLocalPullRequestTemplate`: each candidate path either fails the
stat/is-directory check (`none`) or carries its directory. -/
def findTemplateFromDirs :
    List (String × Option TemplateDir) → Except String (Option (String × String))
  | [] => Except.ok none
  | (_, none) :: rest => findTemplateFromDirs rest
  | (relDir, some d) :: rest =>
    match selectTemplateFromDir d with
    | .error e =>
        .error ("failed to read template directory " ++ relDir ++ ": " ++ e)
    | .ok (sel, content) =>
        if sel = "" then findTemplateFromDirs rest
        else .ok (some (relDir ++ "/" ++ sel, content))

/-- C8: only non-directory entries whose lowercased name ends in `.md`,
`.markdown` or `.txt` are candidates; the selected name is a candidate that
is lexicographically least and the selection returns its content; a missing
or template-free candidate directory is skipped and the search continues
with the next one. -/
theorem template_dir_selection :
    (∀ (d : TemplateDir) (n : String),
      n ∈ templateCandidates d ↔
        ∃ e ∈ d.entries, e.name = n ∧ e.isDir = false ∧ isTemplateFile n = true) ∧
    (∀ d : TemplateDir, templateCandidates d = [] →
      selectTemplateFromDir d = Except.ok ("", "")) ∧
    (∀ d : TemplateDir, templateCandidates d ≠ [] →
      (sortStrings (templateCandidates d)).headD "" ∈ templateCandidates d ∧
      (∀ c ∈ templateCandidates d,
        goStrLe ((sortStrings (templateCandidates d)).headD "") c = true) ∧
      selectTemplateFromDir d =
        (match readDirFile d ((sortStrings (templateCandidates d)).headD "") with
         | .error e => .error e
         | .ok content =>
             .ok ((sortStrings (templateCandidates d)).headD "", content))) ∧
    (∀ (relDir : String) (rest : List (String × Option TemplateDir)),
      findTemplateFromDirs ((relDir, none) :: rest) = findTemplateFromDirs rest) ∧
    (∀ (relDir : String) (d : TemplateDir)
        (rest : List (String × Option TemplateDir)),
      templateCandidates d = [] →
      findTemplateFromDirs ((relDir, some d) :: rest) = findTemplateFromDirs rest) := by
  refine ⟨?_, ?_, ?_, ?_, ?_⟩
  · intro d n
    unfold templateCandidates
    simp only [List.mem_map, List.mem_filter]
    constructor
    · rintro ⟨e, ⟨he, hf⟩, rfl⟩
      simp only [Bool.and_eq_true, Bool.not_eq_true'] at hf
      exact ⟨e, he, rfl, hf.1, hf.2⟩
    · rintro ⟨e, he, rfl, hd, hf⟩
      exact ⟨e, ⟨he, by simp [hd, hf]⟩, rfl⟩
  · intro d h
    simp [selectTemplateFromDir, h]
  · intro d h
    obtain ⟨hm, hle⟩ := sortStrings_first (templateCandidates d) h
    exact ⟨hm, hle, by simp [selectTemplateFromDir, h]⟩
  · intro relDir rest
    rfl
  · intro relDir d rest h
    have hsel : selectTemplateFromDir d = Except.ok ("", "") := by
      simp [selectTemplateFromDir, h]
    simp [findTemplateFromDirs, hsel]

theorem template_dir_selection_witness :
    (sortStrings (templateCandidates
      { entries := [{ name := "z.md", isDir := false },
                    { name := "sub", isDir := true },
                    { name := "a.TXT", isDir := false },
                    { name := "b.png", isDir := false }],
        contents := [("z.md", "zzz"), ("a.TXT", "aaa")] })).headD "" = "a.TXT" ∧
    selectTemplateFromDir
      { entries := [{ name := "z.md", isDir := false },
                    { name := "sub", isDir := true },
                    { name := "a.TXT", isDir := false },
                    { name := "b.png", isDir := false }],
        contents := [("z.md", "zzz"), ("a.TXT", "aaa")] } =
      Except.ok ("a.TXT", "aaa") := by
  have h := (template_dir_selection.2.2.1
    { entries := [{ name := "z.md", isDir := false },
                  { name := "sub", isDir := true },
                  { name := "a.TXT", isDir := false },
                  { name := "b.png", isDir := false }],
      contents := [("z.md", "zzz"), ("a.TXT", "aaa")] } (by decide))
  refine ⟨by decide, ?_⟩
  exact h.2.2.trans rfl

/-! ## Claim C9: the yes/no prompt over a non-terminal stdin -/

/-- Result of the buffered `ReadString` call in the non-terminal branch of
`PromptYesNoWithWriter`: a full line, end of input, or a read error. -/
inductive ReadOutcome
  | ok
  | eof
  | failed (msg : String)
deriving Repr

/-- Embedding of the non-terminal branch of `PromptYesNoWithWriter`
(src/internal/ui/prompt.go): a read error other than EOF is returned with a
false result; otherwise the line read so far is trimmed, lowercased and
tested for a leading `y`. -/
def promptYesNoRead (line : String) (res : ReadOutcome) : Bool × Option String :=
  match res with
  | .failed e => (false, some e)
  | _ => (lineStarts (goToLower (goTrimSpace line)) ['y'], none)

/-- C9: the prompt answers `true` exactly when the read succeeded (possibly
hitting EOF) and the line, trimmed and lowercased, begins with `y`; the
returned error is nil unless the read failed with a non-EOF error, which is
propagated with a `false` result; an immediate EOF yields `(false, nil)`. -/
theorem prompt_reads_leading_y :
    (∀ (line : String) (res : ReadOutcome),
      (promptYesNoRead line res).1 = true ↔
        ((∀ e, res ≠ ReadOutcome.failed e) ∧
          lineStarts (goToLower (goTrimSpace line)) ['y'] = true)) ∧
    (∀ (line : String) (res : ReadOutcome),
      (promptYesNoRead line res).2 = none ↔ ∀ e, res ≠ ReadOutcome.failed e) ∧
    (∀ (line e : String),
      promptYesNoRead line (ReadOutcome.failed e) = (false, some e)) ∧
    promptYesNoRead "" ReadOutcome.eof = (false, none) := by
  refine ⟨?_, ?_, ?_, ?_⟩
  · intro line res
    cases res with
    | ok => simp [promptYesNoRead]
    | eof => simp [promptYesNoRead]
    | failed e =>
      simp only [promptYesNoRead]
      constructor
      · intro h; exact absurd h (by decide)
      · rintro ⟨h, _⟩; exact absurd rfl (h e)
  · intro line res
    cases res with
    | ok => simp [promptYesNoRead]
    | eof => simp [promptYesNoRead]
    | failed e =>
      simp only [promptYesNoRead]
      constructor
      · intro h; exact absurd h (by simp)
      · intro h; exact absurd rfl (h e)
  · intro line e; rfl
  · decide

theorem prompt_reads_leading_y_witness :
    promptYesNoRead " YES " ReadOutcome.ok = (true, none) := by
  have h1 : (promptYesNoRead " YES " ReadOutcome.ok).1 = true :=
    (prompt_reads_leading_y.1 " YES " ReadOutcome.ok).mpr
      ⟨fun e h => ReadOutcome.noConfusion h, by decide⟩
  have h2 : (promptYesNoRead " YES " ReadOutcome.ok).2 = none :=
    (prompt_reads_leading_y.2.1 " YES " ReadOutcome.ok).mpr
      (fun e h => ReadOutcome.noConfusion h)
  rw [show promptYesNoRead " YES " ReadOutcome.ok =
    ((promptYesNoRead " YES " ReadOutcome.ok).1,
     (promptYesNoRead " YES " ReadOutcome.ok).2) from rfl, h1, h2]

/-! ## Claim C10: pull-request number extraction from a URL -/

/-- Model of Go `strconv.Atoi` success: optional sign, at least one digit,
value within the 64-bit integer range. -/
def goAtoiOk (s : String) : Bool :=
  let core :=
    if lineStarts s ['-'] || lineStarts s ['+'] then s.data.drop 1 else s.data
  !core.isEmpty && core.all Char.isDigit &&
    (let v := core.foldl (fun a c => a * 10 + (c.toNat - 48)) 0
     if lineStarts s ['-'] then v ≤ 2 ^ 63 else v ≤ 2 ^ 63 - 1)

/-- Model of Go `strings.Trim(path, "/")`. -/
def trimSlash (s : String) : String :=
  String.mk (((s.data.dropWhile (fun c => c = '/')).reverse.dropWhile
    (fun c => c = '/')).reverse)

/-- `strings.Split(strings.Trim(path, "/"), "/")`. -/
def pathSegments (path : String) : List String :=
  (splitOnChar '/' (trimSlash path).data).map String.mk

/-- The scan of `pullNumberFromURL` over the path segments: the segment after
the first `pull`/`pulls` segment that parses as a decimal integer. -/
def pullNumberFromSegments : List String → String
  | a :: b :: rest =>
    if (a = "pull" || a = "pulls") && goAtoiOk b then b
    else pullNumberFromSegments (b :: rest)
  | _ => ""

/-- The remainder of the character list after the first occurrence of `pat`,
if any. -/
def afterPat (pat : List Char) : List Char → Option (List Char)
  | [] => if pat.isEmpty then some [] else none
  | c :: cs =>
    if pat.isPrefixOf (c :: cs) then some ((c :: cs).drop pat.length)
    else afterPat pat cs

/-- Model of `net/url.Parse` followed by `.Path` on the URLs this command
sees: parsing fails on ASCII control characters; otherwise fragment and query
are cut and the path is the part of the scheme-and-authority remainder from
its first slash. -/
def parseURLPath (s : String) : Option String :=
  if s.data.any (fun c => c.toNat < 32 || c.toNat = 127) then none
  else
    let noFrag := (splitOnChar '#' s.data).headD []
    let noQuery := (splitOnChar '?' noFrag).headD []
    match afterPat [':', '/', '/'] noQuery with
    | none => some (String.mk noQuery)
    | some rest => some (String.mk (rest.dropWhile (fun c => c ≠ '/')))

/-- Embedding of `pullNumberFromURL` (src/unnamed/part_000). -/
def pullNumberFromURL (s : String) : String :=
  match parseURLPath s with
  | none => ""
  | some path => pullNumberFromSegments (pathSegments path)

theorem goAtoiOk_ne_empty (s : String) (h : goAtoiOk s = true) : s ≠ "" := by
  intro hs
  rw [hs] at h
  exact absurd h (by decide)

/-- C10: an unparsable URL yields the empty string; otherwise the scan over
the trimmed, slash-split path returns the first segment following a
`pull`/`pulls` segment that parses as a decimal integer, and the empty
string exactly when no such pair of segments exists. -/
theorem pull_number_extraction :
    (∀ s, parseURLPath s = none → pullNumberFromURL s = "") ∧
    (∀ s path, parseURLPath s = some path →
      pullNumberFromURL s = pullNumberFromSegments (pathSegments path)) ∧
    (∀ segs : List String,
      pullNumberFromSegments segs = "" ↔
        ∀ i, i + 1 < segs.length →
          ¬((segs.getD i "" = "pull" ∨ segs.getD i "" = "pulls") ∧
            goAtoiOk (segs.getD (i + 1) "") = true)) ∧
    (∀ segs : List String, pullNumberFromSegments segs ≠ "" →
      ∃ i, i + 1 < segs.length ∧
        (segs.getD i "" = "pull" ∨ segs.getD i "" = "pulls") ∧
        goAtoiOk (segs.getD (i + 1) "") = true ∧
        segs.getD (i + 1) "" = pullNumberFromSegments segs) := by
  refine ⟨?_, ?_, ?_, ?_⟩
  · intro s h
    simp [pullNumberFromURL, h]
  · intro s path h
    simp [pullNumberFromURL, h]
  · intro segs
    induction segs with
    | nil => simp [pullNumberFromSegments]
    | cons a rest ih =>
      cases rest with
      | nil =>
        simp only [pullNumberFromSegments, List.length_cons, List.length_nil,
          true_iff]
        intro i hi
        omega
      | cons b rest2 =>
        by_cases hc : ((a = "pull" || a = "pulls") && goAtoiOk b) = true
        · have hres : pullNumberFromSegments (a :: b :: rest2) = b := by
            simp [pullNumberFromSegments, hc]
          rw [hres]
          simp only [Bool.and_eq_true, Bool.or_eq_true, decide_eq_true_eq] at hc
          constructor
          · intro hb
            exact absurd (goAtoiOk_ne_empty b hc.2) (by simp [hb])
          · intro h
            exact absurd ⟨hc.1, hc.2⟩ (h 0 (by simp))
        · have hres : pullNumberFromSegments (a :: b :: rest2) =
              pullNumberFromSegments (b :: rest2) := by
            simp [pullNumberFromSegments, hc]
          rw [hres, ih]
          simp only [Bool.and_eq_true, Bool.or_eq_true, decide_eq_true_eq] at hc
          constructor
          · intro h i hi
            cases i with
            | zero => simpa using hc
            | succ i =>
              have := h i (by simpa using hi)
              simpa using this
          · intro h i hi
            have := h (i + 1) (by simpa using hi)
            simpa using this
  · intro segs
    induction segs with
    | nil => intro h; exact absurd rfl h
    | cons a rest ih =>
      cases rest with
      | nil => intro h; exact absurd rfl h
      | cons b rest2 =>
        intro h
        by_cases hc : ((a = "pull" || a = "pulls") && goAtoiOk b) = true
        · have hres : pullNumberFromSegments (a :: b :: rest2) = b := by
            simp [pullNumberFromSegments, hc]
          simp only [Bool.and_eq_true, Bool.or_eq_true, decide_eq_true_eq] at hc
          exact ⟨0, by simp, hc.1, by simpa [hres] using hc.2, by simp [hres]⟩
        · have hres : pullNumberFromSegments (a :: b :: rest2) =
              pullNumberFromSegments (b :: rest2) := by
            simp [pullNumberFromSegments, hc]
          rw [hres] at h
          obtain ⟨i, hi, hseg, hok, heq⟩ := ih h
          refine ⟨i + 1, by simpa using hi, by simpa using hseg, ?_, ?_⟩
          · simpa [hres] using hok
          · simpa [hres] using heq

theorem pull_number_extraction_witness :
    pullNumberFromURL "https://github.com/o/r/pull/123" = "123" ∧
    pullNumberFromURL "https://github.com/o/r/pull/abc" = "" := by
  constructor
  · have h := pull_number_extraction.2.1 "https://github.com/o/r/pull/123"
      "/o/r/pull/123" (by decide)
    exact h.trans (by decide)
  · have h := pull_number_extraction.2.1 "https://github.com/o/r/pull/abc"
      "/o/r/pull/abc" (by decide)
    exact h.trans (by decide)

end Gelf
